import Mathlib

/-!
Verification of the aqiGDL repository (`aqiGDL/data.py`, `aqiGDL/visualization.py`)
against its natural-language specification.

The Python functions are shallowly embedded as Lean definitions:

* `daterange` (data.py, lines 52-75): timestamps are modelled as integers
  counting minutes; `timedelta(hours=lapse)` is `60 * lapse` minutes and
  `timedelta(days=lapse)` is `1440 * lapse` minutes.  The `while` loop is
  modelled by a fuel-indexed recursion `drLoop`: a result of `none` means that
  no finite number of iterations finishes the loop (non-termination at every
  finite fuel), `some .nameError` models the `NameError` raised when the loop
  body runs although no branch assigned `delta`, and `some (.ok l)` is normal
  termination with result `l`.
* `p_limits`, `imeca_colours`, `symbology_gdf` (visualization.py): dictionary
  lookup failure (`KeyError`) is modelled by `Option`.  Because
  `imeca_colours` is called by `symbology_gdf` on numpy arrays (the `.values`
  of a label selection) as well as on scalars, its argument is modelled by the
  sum type `NpVal` (scalar or array); `if` on a numpy comparison result is
  modelled by `npTruth`, which reproduces numpy truthiness of boolean arrays:
  a one-element array is its element, the empty array is falsy (numpy of the
  repository's era, with a deprecation warning), and an array of two or more
  elements raises `ValueError` (modelled as `none`).
* `week_average` (data.py, lines 337-404): a dataframe row is an `Obs`
  (PARAM, EST_{station} value, CONC, the year of FECHA — the only part of the
  date the function reads — and LONG/LAT); the output rows are `WeekRow`s.
  The string labels `'S' + str(s)` and `'S' + str(s) + '-' + str(y)` are
  modelled by the number `s` and the pair `(s, y)`: the only operation ever
  applied to them is equality, and the string forms are equal iff the numeric
  forms are.  Concentrations are exact rationals; `DESV_EST`, which the code
  sets to the sample standard deviation (an irrational square root), is
  modelled by its square, the sample variance `listVar`.
-/

/-! ## daterange (data.py, lines 52-75) -/

/-- Outcome of a `daterange` call that finishes: the returned list of dates,
or the `NameError` raised at `start_date += delta` when no branch of the
`if`/`elif` on `interval` ever assigned `delta`. -/
inductive DateResult where
  | ok (dates : List ℤ)
  | nameError
deriving DecidableEq

/-- Fuel-indexed model of the `while start_date <= end_date` loop of
`daterange`.  `delta = none` models the variable `delta` being unbound
(unrecognised `interval`).  `none` as a result means the fuel was exhausted
before the loop finished. -/
def drLoop (delta : Option ℤ) (start e : ℤ) : ℕ → Option DateResult
  | 0 => none
  | fuel + 1 =>
    if start ≤ e then
      match delta with
      | none => some .nameError
      | some d =>
        match drLoop delta (start + d) e fuel with
        | some (.ok l) => some (.ok (start :: l))
        | r => r
    else some (.ok [])

/-- The step `delta` selected by the `if interval == 'hour'` / `elif
interval == 'day'` chain, in minutes; `none` when neither branch assigns. -/
def deltaOf (interval : String) (lapse : ℤ) : Option ℤ :=
  if interval = "hour" then some (60 * lapse)
  else if interval = "day" then some (1440 * lapse)
  else none

/-- Model of `daterange(start_date, end_date, interval, lapse)`; timestamps in
minutes, `fuel` bounds the number of loop iterations observed. -/
def daterange (start_date end_date : ℤ) (interval : String) (lapse : ℤ)
    (fuel : ℕ) : Option DateResult :=
  drLoop (deltaOf interval lapse) start_date end_date fuel

/-- Number of iterations the loop performs for a positive step `d`. -/
def numSteps (start e d : ℤ) : ℕ :=
  if start ≤ e then (e - start).toNat / d.toNat + 1 else 0

/-- The arithmetic progression `start, start + d, …` of length `n`. -/
def arithSeq (start d : ℤ) (n : ℕ) : List ℤ :=
  (List.range n).map (fun k : ℕ => start + d * (k : ℤ))

lemma numSteps_step {d start e : ℤ} (hd : 0 < d) (hse : start ≤ e) :
    numSteps start e d = numSteps (start + d) e d + 1 := by
  unfold numSteps
  by_cases h : start + d ≤ e
  · rw [if_pos hse, if_pos h]
    have ha : (e - start).toNat = (e - (start + d)).toNat + d.toNat := by omega
    rw [ha, Nat.add_div_right _ (by omega : 0 < d.toNat)]
  · rw [if_pos hse, if_neg h]
    have hlt : (e - start).toNat < d.toNat := by omega
    rw [Nat.div_eq_of_lt hlt]

lemma arithSeq_succ (start d : ℤ) (n : ℕ) :
    arithSeq start d (n + 1) = start :: arithSeq (start + d) d n := by
  unfold arithSeq
  rw [List.range_succ_eq_map, List.map_cons, List.map_map]
  congr 1
  · simp
  · apply List.map_congr_left
    intro k _
    simp only [Function.comp_apply, Nat.succ_eq_add_one]
    push_cast
    ring

lemma drLoop_pos {d : ℤ} (hd : 0 < d) (e : ℤ) :
    ∀ fuel start, numSteps start e d + 1 ≤ fuel →
      drLoop (some d) start e fuel = some (.ok (arithSeq start d (numSteps start e d))) := by
  intro fuel
  induction fuel with
  | zero => intro start hf; omega
  | succ fuel ih =>
    intro start hf
    by_cases hse : start ≤ e
    · have hstep : numSteps start e d = numSteps (start + d) e d + 1 :=
        numSteps_step hd hse
      have hrec : numSteps (start + d) e d + 1 ≤ fuel := by omega
      simp only [drLoop, if_pos hse, ih (start + d) hrec, hstep, arithSeq_succ]
    · simp only [drLoop, if_neg hse]
      have h0 : numSteps start e d = 0 := by rw [numSteps, if_neg hse]
      rw [h0]
      rfl

lemma drLoop_empty (delta : Option ℤ) {start e : ℤ} (h : e < start) {fuel : ℕ}
    (hf : 1 ≤ fuel) : drLoop delta start e fuel = some (.ok []) := by
  cases fuel with
  | zero => omega
  | succ fuel => simp only [drLoop, if_neg (by omega : ¬ start ≤ e)]

lemma drLoop_zero_delta {start e : ℤ} (hse : start ≤ e) :
    ∀ fuel, drLoop (some 0) start e fuel = none := by
  intro fuel
  induction fuel with
  | zero => rfl
  | succ fuel ih =>
    simp only [drLoop, if_pos hse, add_zero, ih]

lemma numSteps_mem_le {d start e : ℤ} (hd : 0 < d) (hse : start ≤ e) :
    ∀ k : ℕ, k < numSteps start e d → start + d * k ≤ e := by
  intro k hk
  rw [numSteps, if_pos hse] at hk
  have hk' : k ≤ (e - start).toNat / d.toNat := by omega
  have hmul : k * d.toNat ≤ (e - start).toNat :=
    (Nat.le_div_iff_mul_le (by omega : 0 < d.toNat)).mp hk'
  have h1 : ((k * d.toNat : ℕ) : ℤ) ≤ (((e - start).toNat : ℕ) : ℤ) :=
    Int.ofNat_le.mpr hmul
  rw [Int.toNat_of_nonneg (by omega : (0:ℤ) ≤ e - start), Nat.cast_mul,
    Int.toNat_of_nonneg (by omega : (0:ℤ) ≤ d)] at h1
  linarith [h1, mul_comm (k : ℤ) d]

lemma numSteps_last_lt {d start e : ℤ} (hd : 0 < d) (hse : start ≤ e) :
    e < start + d * numSteps start e d := by
  rw [numSteps, if_pos hse]
  set a := (e - start).toNat with ha
  set D := d.toNat with hD
  have hmod : D * (a / D) + a % D = a := Nat.div_add_mod a D
  have hlt : a % D < D := Nat.mod_lt _ (by omega)
  have hnat : a < D * (a / D + 1) := by
    calc a = D * (a / D) + a % D := hmod.symm
    _ < D * (a / D) + D := by omega
    _ = D * (a / D + 1) := by ring
  have hcast : ((a : ℕ) : ℤ) < ((D * (a / D + 1) : ℕ) : ℤ) := Int.ofNat_lt.mpr hnat
  rw [Nat.cast_mul, Nat.cast_add, Nat.cast_one] at hcast
  have haz : ((a : ℕ) : ℤ) = e - start := by omega
  have hDz : ((D : ℕ) : ℤ) = d := by omega
  rw [haz, hDz] at hcast
  rw [Nat.cast_add, Nat.cast_one]
  linarith

/-- C5.  For every `start ≤ end`, `interval ∈ {'hour','day'}` and `lapse ≥ 1`,
`daterange` terminates (given enough fuel, uniformly) and returns exactly the
ordered arithmetic progression `start, start+d, start+2d, …` of the timestamps
`≤ end`, where `d = interval × lapse`: the result equals
`arithSeq start d (numSteps start e d)`, every listed timestamp is `≤ end`,
and the next one would exceed `end`.  The function is a pure Lean function of
its arguments, hence deterministic. -/
theorem daterange_exact_progression (start e lapse : ℤ) (interval : String)
    (fuel : ℕ) (hse : start ≤ e) (hl : 1 ≤ lapse)
    (hiv : interval = "hour" ∨ interval = "day")
    (hf : (e - start).toNat + 2 ≤ fuel) :
    ∃ d, deltaOf interval lapse = some d ∧ 0 < d ∧
      daterange start e interval lapse fuel =
        some (.ok (arithSeq start d (numSteps start e d))) ∧
      (∀ k : ℕ, k < numSteps start e d → start + d * k ≤ e) ∧
      e < start + d * numSteps start e d := by
  have hval : ∃ d, deltaOf interval lapse = some d ∧ 0 < d := by
    rcases hiv with h | h
    · exact ⟨60 * lapse, by rw [h, deltaOf, if_pos rfl], by linarith⟩
    · refine ⟨1440 * lapse, ?_, by linarith⟩
      rw [h, deltaOf, if_neg (by decide), if_pos rfl]
  obtain ⟨d, hd, hdpos⟩ := hval
  have hfuel : numSteps start e d + 1 ≤ fuel := by
    have hdiv : (e - start).toNat / d.toNat ≤ (e - start).toNat := Nat.div_le_self _ _
    rw [numSteps, if_pos hse]
    omega
  refine ⟨d, hd, hdpos, ?_, numSteps_mem_le hdpos hse, numSteps_last_lt hdpos hse⟩
  rw [daterange, hd]
  exact drLoop_pos hdpos e fuel start hfuel

/-- Witness for C5, reproducing the spec's example in minutes since
2018-01-01 00:00: hourly steps from 00:00 to 03:00 give the four timestamps
00:00, 01:00, 02:00, 03:00, and with `lapse = 2` exactly 00:00 and 02:00. -/
theorem daterange_exact_progression_witness :
    daterange 0 180 "hour" 1 182 = some (.ok [0, 60, 120, 180]) ∧
    daterange 0 180 "hour" 2 182 = some (.ok [0, 120]) := by
  constructor
  · obtain ⟨d, hd, -, hrun, -, -⟩ :=
      daterange_exact_progression 0 180 1 "hour" 182 (by decide) (by decide)
        (Or.inl rfl) (by decide)
    have hd' : d = 60 := by
      rw [deltaOf, if_pos rfl] at hd
      simp only [Option.some.injEq] at hd
      omega
    subst hd'
    rw [hrun]
    decide
  · obtain ⟨d, hd, -, hrun, -, -⟩ :=
      daterange_exact_progression 0 180 2 "hour" 182 (by decide) (by decide)
        (Or.inl rfl) (by decide)
    have hd' : d = 120 := by
      rw [deltaOf, if_pos rfl] at hd
      simp only [Option.some.injEq] at hd
      omega
    subst hd'
    rw [hrun]
    decide

/-- Counterexample to C9 as stated: with `interval = 'week'` (outside
{'hour','day'}) but `start > end`, the loop body never runs, so the call does
not fail — it returns the empty list. -/
theorem daterange_invalid_interval_returns :
    daterange 1 0 "week" 1 1 = some (.ok []) := by decide

/-- C9 (amended).  `daterange` is total only under the preconditions
`interval ∈ {'hour','day'}` and `lapse ≥ 1`: (i) for every such input it
terminates with a finite list, uniformly for all sufficient fuel; (ii) with a
valid interval, `lapse = 0` and `start ≤ end` the loop never terminates (no
finite fuel produces a result); (iii) with an interval outside
{'hour','day'} and `start ≤ end` the step variable is never assigned and the
call fails with a name error instead of returning; (iv) with `start > end`
the loop body never runs, and the call returns the empty list even for an
invalid interval. -/
theorem daterange_totality_preconditions :
    (∀ start e lapse : ℤ, ∀ interval : String,
      (interval = "hour" ∨ interval = "day") → 1 ≤ lapse →
      ∃ l : List ℤ, ∀ fuel : ℕ, (e - start).toNat + 2 ≤ fuel →
        daterange start e interval lapse fuel = some (.ok l)) ∧
    (∀ start e : ℤ, ∀ interval : String,
      (interval = "hour" ∨ interval = "day") → start ≤ e →
      ∀ fuel : ℕ, daterange start e interval 0 fuel = none) ∧
    (∀ start e lapse : ℤ, ∀ interval : String, ∀ fuel : ℕ,
      interval ≠ "hour" → interval ≠ "day" → start ≤ e → 1 ≤ fuel →
      daterange start e interval lapse fuel = some .nameError) ∧
    (∀ start e lapse : ℤ, ∀ interval : String, ∀ fuel : ℕ,
      e < start → 1 ≤ fuel →
      daterange start e interval lapse fuel = some (.ok [])) := by
  refine ⟨?_, ?_, ?_, ?_⟩
  · intro start e lapse interval hiv hl
    by_cases hse : start ≤ e
    · obtain ⟨d, hd, hdpos⟩ : ∃ d, deltaOf interval lapse = some d ∧ 0 < d := by
        rcases hiv with h | h
        · exact ⟨60 * lapse, by rw [h, deltaOf, if_pos rfl], by linarith⟩
        · refine ⟨1440 * lapse, ?_, by linarith⟩
          rw [h, deltaOf, if_neg (by decide), if_pos rfl]
      refine ⟨arithSeq start d (numSteps start e d), fun fuel hf => ?_⟩
      have hfuel : numSteps start e d + 1 ≤ fuel := by
        have hdiv : (e - start).toNat / d.toNat ≤ (e - start).toNat :=
          Nat.div_le_self _ _
        rw [numSteps, if_pos hse]
        omega
      rw [daterange, hd]
      exact drLoop_pos hdpos e fuel start hfuel
    · exact ⟨[], fun fuel hf => drLoop_empty _ (by omega) (by omega)⟩
  · intro start e interval hiv hse fuel
    have hd0 : deltaOf interval 0 = some 0 := by
      rcases hiv with h | h
      · rw [h, deltaOf, if_pos rfl, mul_zero]
      · rw [h, deltaOf, if_neg (by decide), if_pos rfl, mul_zero]
    rw [daterange, hd0]
    exact drLoop_zero_delta hse fuel
  · intro start e lapse interval fuel h1 h2 hse hf
    have hdn : deltaOf interval lapse = none := by
      rw [deltaOf, if_neg h1, if_neg h2]
    cases fuel with
    | zero => omega
    | succ fuel =>
      rw [daterange, hdn]
      simp only [drLoop, if_pos hse]
  · intro start e lapse interval fuel h hf
    exact drLoop_empty _ h hf

/-- Witness for C9: the hourly progression from 0 to 120 minutes exists and is
stable in fuel; with `lapse = 0` the loop runs forever; with interval
`'week'` and `start ≤ end` the call fails with a name error. -/
theorem daterange_totality_preconditions_witness :
    (∃ l : List ℤ, ∀ fuel : ℕ, 122 ≤ fuel → daterange 0 120 "hour" 1 fuel = some (.ok l)) ∧
    daterange 0 120 "hour" 0 5 = none ∧
    daterange 0 0 "week" 3 1 = some .nameError := by
  refine ⟨?_, ?_, ?_⟩
  · obtain ⟨l, hl⟩ := daterange_totality_preconditions.1 0 120 1 "hour" (Or.inl rfl) (by decide)
    exact ⟨l, fun fuel hf => hl fuel (by omega)⟩
  · exact daterange_totality_preconditions.2.1 0 120 "hour" (Or.inl rfl) (by decide) 5
  · exact daterange_totality_preconditions.2.2.1 0 0 3 "week" 1 (by decide) (by decide)
      (by decide) (by decide)

/-! ## p_limits and imeca_colours (visualization.py, lines 11-116) -/

/-- Model of `p_limits(param)`: the literal `limit_dict` lookup;
`none` models the `KeyError` raised for a key outside the table. -/
def p_limits (param : String) : Option ℚ :=
  if param = "PM10" then some 214
  else if param = "O3" then some 0.154
  else if param = "CO" then some 16.5
  else if param = "PM25" then some 97.4
  else if param = "SO2" then some 0.195
  else if param = "NO2" then some 0.315
  else none

/-- A Python value flowing through `imeca_colours`: either a scalar float or a
numpy float array (as passed by `symbology_gdf`, whose `c_value` is the
`.values` array of a label selection). -/
inductive NpVal where
  | scalar (q : ℚ)
  | arr (l : List ℚ)
deriving DecidableEq

/-- Truthiness of a numpy boolean array, as used by `if` on the result of an
array comparison: a one-element array is its element, the empty array is
falsy (numpy of the repository's era, with a deprecation warning), and two or
more elements raise `ValueError` (ambiguous truth value), modelled `none`. -/
def npTruth : List Bool → Option Bool
  | [] => some false
  | [b] => some b
  | _ :: _ :: _ => none

/-- Evaluate a pointwise comparison of an `NpVal` as an `if` condition. -/
def npBool (p : ℚ → Bool) (v : NpVal) : Option Bool :=
  match v with
  | .scalar x => some (p x)
  | .arr xs => npTruth (xs.map p)

/-- Pointwise (broadcast) arithmetic on an `NpVal`. -/
def npMap (f : ℚ → ℚ) (v : NpVal) : NpVal :=
  match v with
  | .scalar x => .scalar (f x)
  | .arr xs => .arr (xs.map f)

/-- The colour-banding `if`/`elif` chain at the end of `imeca_colours`
(visualization.py, lines 98-116), applied to the computed `imeca` value. -/
def colourOfImeca (v : NpVal) : Option String :=
  (npBool (fun x => decide (x ≤ 50)) v).bind fun b1 =>
  if b1 then some "#75b46f" else
  (npBool (fun x => decide (50 < x ∧ x ≤ 100)) v).bind fun b2 =>
  if b2 then some "#f7ff55" else
  (npBool (fun x => decide (100 < x ∧ x ≤ 150)) v).bind fun b3 =>
  if b3 then some "#ff9e4f" else
  (npBool (fun x => decide (150 < x ∧ x ≤ 200)) v).bind fun b4 =>
  if b4 then some "#db3331" else
  (npBool (fun x => decide (200 < x)) v).bind fun b5 =>
  if b5 then some "#c158b8" else some "#ffffff"

/-- The `imeca` value computed by `imeca_colours` (visualization.py, lines
39-96): initialised to `0`, reassigned by the per-pollutant branch; for O3 and
PM10 the piecewise branches test array conditions through `npTruth`. -/
def imecaIndex (param : String) (conc : NpVal) : Option NpVal :=
  if param = "CO" then some (npMap (fun c => c * 100 / 11) conc)
  else if param = "SO2" then some (npMap (fun c => c / 1000 * 100 / 0.11) conc)
  else if param = "NO2" then some (npMap (fun c => c / 1000 * 100 / 0.21) conc)
  else if param = "O3" then
    let c := npMap (fun x => x / 1000) conc
    (npBool (fun x => decide (x ≤ 0.07)) c).bind fun b1 =>
    if b1 then some (npMap (fun x => 714.29 * x) c) else
    (npBool (fun x => decide (0.07 < x ∧ x ≤ 0.095)) c).bind fun b2 =>
    if b2 then some (npMap (fun x => 2041.67 * (x - 0.071) + 51) c) else
    (npBool (fun x => decide (0.095 < x ∧ x ≤ 0.154)) c).bind fun b3 =>
    if b3 then some (npMap (fun x => 844.83 * (x - 0.096) + 101) c) else
    (npBool (fun x => decide (0.154 < x ∧ x ≤ 0.204)) c).bind fun b4 =>
    if b4 then some (npMap (fun x => 1000 * (x - 0.155) + 151) c) else
    (npBool (fun x => decide (0.204 < x ∧ x ≤ 0.404)) c).bind fun b5 =>
    if b5 then some (npMap (fun x => 497.49 * (x - 0.205) + 201) c) else
    (npBool (fun x => decide (0.404 < x)) c).bind fun b6 =>
    if b6 then some (npMap (fun x => 1000 * (x - 104)) c) else
    some (.scalar 0)
  else if param = "PM10" then
    (npBool (fun c => decide (c ≤ 40)) conc).bind fun b1 =>
    if b1 then some (npMap (fun c => 1.25 * c) conc) else
    (npBool (fun c => decide (40 < c ∧ c ≤ 75)) conc).bind fun b2 =>
    if b2 then some (npMap (fun c => 1.44 * (c - 41) + 51) conc) else
    (npBool (fun c => decide (75 < c ∧ c ≤ 214)) conc).bind fun b3 =>
    if b3 then some (npMap (fun c => 0.355 * (c - 76) + 101) conc) else
    (npBool (fun c => decide (214 < c ∧ c ≤ 354)) conc).bind fun b4 =>
    if b4 then some (npMap (fun c => 0.353 * (c - 215) + 151) conc) else
    (npBool (fun c => decide (354 < c ∧ c ≤ 424)) conc).bind fun b5 =>
    if b5 then some (npMap (fun c => 1.4359 * (c - 355) + 201) conc) else
    (npBool (fun c => decide (424 < c ∧ c ≤ 504)) conc).bind fun b6 =>
    if b6 then some (npMap (fun c => 1.253 * (c - 425) + 301) conc) else
    (npBool (fun c => decide (504 < c)) conc).bind fun b7 =>
    if b7 then some (npMap (fun c => c - 104) conc) else
    some (.scalar 0)
  else some (.scalar 0)

/-- Model of `imeca_colours(param, conc)`: compute the index, then band it. -/
def imeca_colours (param : String) (conc : NpVal) : Option String :=
  (imecaIndex param conc).bind colourOfImeca

lemma imecaIndex_CO (v : NpVal) :
    imecaIndex "CO" v = some (npMap (fun c => c * 100 / 11) v) := by
  rw [imecaIndex, if_pos rfl]

lemma imecaIndex_SO2 (v : NpVal) :
    imecaIndex "SO2" v = some (npMap (fun c => c / 1000 * 100 / 0.11) v) := by
  rw [imecaIndex, if_neg (by decide), if_pos rfl]

lemma imecaIndex_NO2 (v : NpVal) :
    imecaIndex "NO2" v = some (npMap (fun c => c / 1000 * 100 / 0.21) v) := by
  rw [imecaIndex, if_neg (by decide), if_neg (by decide), if_pos rfl]

lemma imecaIndex_O3 (v : NpVal) :
    imecaIndex "O3" v =
      ((npBool (fun x => decide (x ≤ 0.07)) (npMap (fun x => x / 1000) v)).bind fun b1 =>
      if b1 then some (npMap (fun x => 714.29 * x) (npMap (fun x => x / 1000) v)) else
      (npBool (fun x => decide (0.07 < x ∧ x ≤ 0.095)) (npMap (fun x => x / 1000) v)).bind fun b2 =>
      if b2 then some (npMap (fun x => 2041.67 * (x - 0.071) + 51) (npMap (fun x => x / 1000) v)) else
      (npBool (fun x => decide (0.095 < x ∧ x ≤ 0.154)) (npMap (fun x => x / 1000) v)).bind fun b3 =>
      if b3 then some (npMap (fun x => 844.83 * (x - 0.096) + 101) (npMap (fun x => x / 1000) v)) else
      (npBool (fun x => decide (0.154 < x ∧ x ≤ 0.204)) (npMap (fun x => x / 1000) v)).bind fun b4 =>
      if b4 then some (npMap (fun x => 1000 * (x - 0.155) + 151) (npMap (fun x => x / 1000) v)) else
      (npBool (fun x => decide (0.204 < x ∧ x ≤ 0.404)) (npMap (fun x => x / 1000) v)).bind fun b5 =>
      if b5 then some (npMap (fun x => 497.49 * (x - 0.205) + 201) (npMap (fun x => x / 1000) v)) else
      (npBool (fun x => decide (0.404 < x)) (npMap (fun x => x / 1000) v)).bind fun b6 =>
      if b6 then some (npMap (fun x => 1000 * (x - 104)) (npMap (fun x => x / 1000) v)) else
      some (.scalar 0)) := by
  rw [imecaIndex, if_neg (by decide), if_neg (by decide), if_neg (by decide), if_pos rfl]

lemma imecaIndex_PM10 (v : NpVal) :
    imecaIndex "PM10" v =
      ((npBool (fun c => decide (c ≤ 40)) v).bind fun b1 =>
      if b1 then some (npMap (fun c => 1.25 * c) v) else
      (npBool (fun c => decide (40 < c ∧ c ≤ 75)) v).bind fun b2 =>
      if b2 then some (npMap (fun c => 1.44 * (c - 41) + 51) v) else
      (npBool (fun c => decide (75 < c ∧ c ≤ 214)) v).bind fun b3 =>
      if b3 then some (npMap (fun c => 0.355 * (c - 76) + 101) v) else
      (npBool (fun c => decide (214 < c ∧ c ≤ 354)) v).bind fun b4 =>
      if b4 then some (npMap (fun c => 0.353 * (c - 215) + 151) v) else
      (npBool (fun c => decide (354 < c ∧ c ≤ 424)) v).bind fun b5 =>
      if b5 then some (npMap (fun c => 1.4359 * (c - 355) + 201) v) else
      (npBool (fun c => decide (424 < c ∧ c ≤ 504)) v).bind fun b6 =>
      if b6 then some (npMap (fun c => 1.253 * (c - 425) + 301) v) else
      (npBool (fun c => decide (504 < c)) v).bind fun b7 =>
      if b7 then some (npMap (fun c => c - 104) v) else
      some (.scalar 0)) := by
  rw [imecaIndex, if_neg (by decide), if_neg (by decide), if_neg (by decide),
    if_neg (by decide), if_pos rfl]

lemma imecaIndex_other (param : String) (v : NpVal)
    (hCO : param ≠ "CO") (hSO2 : param ≠ "SO2") (hNO2 : param ≠ "NO2")
    (hO3 : param ≠ "O3") (hPM10 : param ≠ "PM10") :
    imecaIndex param v = some (.scalar 0) := by
  rw [imecaIndex, if_neg hCO, if_neg hSO2, if_neg hNO2, if_neg hO3, if_neg hPM10]

lemma npBool_singleton (p : ℚ → Bool) (x : ℚ) :
    npBool p (.arr [x]) = some (p x) := rfl

lemma npMap_singleton (f : ℚ → ℚ) (x : ℚ) :
    npMap f (.arr [x]) = .arr [f x] := rfl

lemma colourOfImeca_singleton (y : ℚ) :
    colourOfImeca (.arr [y]) = colourOfImeca (.scalar y) := by
  simp only [colourOfImeca, npBool, npTruth, List.map]

lemma colourOfImeca_scalar_isSome (y : ℚ) : ∃ c, colourOfImeca (.scalar y) = some c := by
  simp only [colourOfImeca, npBool, Option.some_bind]
  split_ifs <;> exact ⟨_, rfl⟩

lemma colourOfImeca_multi (x y : ℚ) (t : List ℚ) :
    colourOfImeca (.arr (x :: y :: t)) = none := by
  simp only [colourOfImeca, npBool, List.map_cons, npTruth, Option.none_bind]

lemma colourOfImeca_nil : colourOfImeca (.arr []) = some "#ffffff" := rfl

lemma colourOfImeca_zero : colourOfImeca (.scalar 0) = some "#75b46f" := by
  have h : ((0:ℚ) ≤ 50) := by norm_num
  simp only [colourOfImeca, npBool, Option.some_bind, decide_eq_true_eq, h, if_pos]

/-- On a one-element array `imeca_colours` behaves exactly as on the scalar
element: every branch condition is the truth value of a one-element boolean
array, which is its element. -/
lemma imeca_colours_singleton (param : String) (x : ℚ) :
    imeca_colours param (.arr [x]) = imeca_colours param (.scalar x) := by
  by_cases hCO : param = "CO"
  · subst hCO
    simp only [imeca_colours, imecaIndex_CO, npMap, List.map, Option.some_bind,
      colourOfImeca_singleton]
  by_cases hSO2 : param = "SO2"
  · subst hSO2
    simp only [imeca_colours, imecaIndex_SO2, npMap, List.map, Option.some_bind,
      colourOfImeca_singleton]
  by_cases hNO2 : param = "NO2"
  · subst hNO2
    simp only [imeca_colours, imecaIndex_NO2, npMap, List.map, Option.some_bind,
      colourOfImeca_singleton]
  by_cases hO3 : param = "O3"
  · subst hO3
    simp only [imeca_colours, imecaIndex_O3, npMap, List.map_cons, List.map_nil,
      npBool, npTruth, Option.some_bind]
    split_ifs <;> simp only [Option.some_bind, colourOfImeca_singleton]
  by_cases hPM10 : param = "PM10"
  · subst hPM10
    simp only [imeca_colours, imecaIndex_PM10, npMap, List.map_cons, List.map_nil,
      npBool, npTruth, Option.some_bind]
    split_ifs <;> simp only [Option.some_bind, colourOfImeca_singleton]
  · simp only [imeca_colours, imecaIndex_other param _ hCO hSO2 hNO2 hO3 hPM10]

/-- For each of the five computed pollutants, a concentration array of two or
more elements makes `imeca_colours` fail: some branch tests the truth value of
a multi-element boolean array. -/
lemma imeca_colours_multi (param : String)
    (hp : param = "CO" ∨ param = "SO2" ∨ param = "NO2" ∨ param = "O3" ∨ param = "PM10")
    (x y : ℚ) (t : List ℚ) : imeca_colours param (.arr (x :: y :: t)) = none := by
  rcases hp with h | h | h | h | h <;> subst h
  · simp only [imeca_colours, imecaIndex_CO, npMap, List.map_cons, Option.some_bind,
      colourOfImeca_multi]
  · simp only [imeca_colours, imecaIndex_SO2, npMap, List.map_cons, Option.some_bind,
      colourOfImeca_multi]
  · simp only [imeca_colours, imecaIndex_NO2, npMap, List.map_cons, Option.some_bind,
      colourOfImeca_multi]
  · simp only [imeca_colours, imecaIndex_O3, npMap, List.map_cons, npBool, npTruth,
      Option.none_bind]
  · simp only [imeca_colours, imecaIndex_PM10, npBool, List.map_cons, npTruth,
      Option.none_bind]

/-- On the empty array (an iterated label that matches no row) every branch
condition is falsy, and `imeca_colours` returns a colour without error. -/
lemma imeca_colours_nil (param : String) : ∃ c, imeca_colours param (.arr []) = some c := by
  by_cases hCO : param = "CO"
  · subst hCO
    refine ⟨"#ffffff", ?_⟩
    simp only [imeca_colours, imecaIndex_CO, npMap, List.map_nil,
      Option.some_bind, colourOfImeca_nil]
  by_cases hSO2 : param = "SO2"
  · subst hSO2
    refine ⟨"#ffffff", ?_⟩
    simp only [imeca_colours, imecaIndex_SO2, npMap, List.map_nil,
      Option.some_bind, colourOfImeca_nil]
  by_cases hNO2 : param = "NO2"
  · subst hNO2
    refine ⟨"#ffffff", ?_⟩
    simp only [imeca_colours, imecaIndex_NO2, npMap, List.map_nil,
      Option.some_bind, colourOfImeca_nil]
  by_cases hO3 : param = "O3"
  · subst hO3
    refine ⟨"#75b46f", ?_⟩
    simp only [imeca_colours, imecaIndex_O3, npMap, List.map_nil, npBool, npTruth,
      Option.some_bind, Bool.false_eq_true, if_false, colourOfImeca_zero]
  by_cases hPM10 : param = "PM10"
  · subst hPM10
    refine ⟨"#75b46f", ?_⟩
    simp only [imeca_colours, imecaIndex_PM10, npMap, List.map_nil, npBool, npTruth,
      Option.some_bind, Bool.false_eq_true, if_false, colourOfImeca_zero]
  · exact ⟨"#75b46f", by
      simp only [imeca_colours, imecaIndex_other param _ hCO hSO2 hNO2 hO3 hPM10,
        Option.some_bind, colourOfImeca_zero]⟩

/-- On any scalar concentration `imeca_colours` returns a colour: the branch
conditions are ordinary boolean tests and the final `else` catches the rest. -/
lemma imeca_colours_scalar_isSome (param : String) (x : ℚ) :
    ∃ c, imeca_colours param (.scalar x) = some c := by
  by_cases hCO : param = "CO"
  · subst hCO
    simp only [imeca_colours, imecaIndex_CO, npMap, Option.some_bind]
    exact colourOfImeca_scalar_isSome _
  by_cases hSO2 : param = "SO2"
  · subst hSO2
    simp only [imeca_colours, imecaIndex_SO2, npMap, Option.some_bind]
    exact colourOfImeca_scalar_isSome _
  by_cases hNO2 : param = "NO2"
  · subst hNO2
    simp only [imeca_colours, imecaIndex_NO2, npMap, Option.some_bind]
    exact colourOfImeca_scalar_isSome _
  by_cases hO3 : param = "O3"
  · subst hO3
    simp only [imeca_colours, imecaIndex_O3, npMap, npBool, Option.some_bind]
    split_ifs <;> simp only [Option.some_bind] <;>
      first
        | exact colourOfImeca_scalar_isSome _
        | exact ⟨_, colourOfImeca_zero⟩
  by_cases hPM10 : param = "PM10"
  · subst hPM10
    simp only [imeca_colours, imecaIndex_PM10, npMap, npBool, Option.some_bind]
    split_ifs <;> simp only [Option.some_bind] <;>
      first
        | exact colourOfImeca_scalar_isSome _
        | exact ⟨_, colourOfImeca_zero⟩
  · exact ⟨"#75b46f", by
      simp only [imeca_colours, imecaIndex_other param _ hCO hSO2 hNO2 hO3 hPM10,
        Option.some_bind, colourOfImeca_zero]⟩

/-- C6.  `p_limits` returns exactly the six literal thresholds of
`limit_dict`, and fails with a key error for every other pollutant code. -/
theorem p_limits_table :
    p_limits "PM10" = some 214 ∧ p_limits "O3" = some 0.154 ∧
    p_limits "CO" = some 16.5 ∧ p_limits "PM25" = some 97.4 ∧
    p_limits "SO2" = some 0.195 ∧ p_limits "NO2" = some 0.315 ∧
    ∀ param : String, param ∉ ["PM10", "O3", "CO", "PM25", "SO2", "NO2"] →
      p_limits param = none := by
  refine ⟨rfl, rfl, rfl, rfl, rfl, rfl, ?_⟩
  intro param h
  simp only [List.mem_cons, List.not_mem_nil, or_false, not_or] at h
  obtain ⟨h1, h2, h3, h4, h5, h6⟩ := h
  rw [p_limits, if_neg h1, if_neg h2, if_neg h3, if_neg h4, if_neg h5, if_neg h6]

/-- Witness for C6: the unknown code `'UNKNOWN'` fails with a key error. -/
theorem p_limits_table_witness : p_limits "UNKNOWN" = none :=
  p_limits_table.2.2.2.2.2.2 "UNKNOWN" (by decide)

/-- C1.  Boundary behaviour of the colour bands: `imeca_colours('CO', 11)`
computes index exactly `100` and lands in the 50-100 band (`#f7ff55`), not the
next band up; `imeca_colours('PM10', 40)` computes index exactly `50`
(`#75b46f`); `imeca_colours('PM10', 41)` computes index `1.44*(41-41)+51 = 51`
(`#f7ff55`): bands are left-open and right-closed. -/
theorem imeca_colour_band_boundaries :
    imecaIndex "CO" (.scalar 11) = some (.scalar 100) ∧
    imeca_colours "CO" (.scalar 11) = some "#f7ff55" ∧
    imecaIndex "PM10" (.scalar 40) = some (.scalar 50) ∧
    imeca_colours "PM10" (.scalar 40) = some "#75b46f" ∧
    imecaIndex "PM10" (.scalar 41) = some (.scalar (1.44 * (41 - 41) + 51)) ∧
    imecaIndex "PM10" (.scalar 41) = some (.scalar 51) ∧
    imeca_colours "PM10" (.scalar 41) = some "#f7ff55" := by
  refine ⟨?_, ?_, ?_, ?_, ?_, ?_, ?_⟩
  · rw [imecaIndex_CO]
    simp only [npMap, Option.some.injEq, NpVal.scalar.injEq]
    norm_num
  · rw [imeca_colours, imecaIndex_CO]
    simp only [npMap, Option.some_bind, colourOfImeca, npBool]
    norm_num
  · rw [imecaIndex_PM10]
    simp only [npBool, Option.some_bind]
    norm_num [npMap]
  · rw [imeca_colours, imecaIndex_PM10]
    simp only [npBool, Option.some_bind]
    norm_num [npMap, colourOfImeca, npBool]
  · rw [imecaIndex_PM10]
    simp only [npBool, Option.some_bind]
    norm_num [npMap]
  · rw [imecaIndex_PM10]
    simp only [npBool, Option.some_bind]
    norm_num [npMap]
  · rw [imeca_colours, imecaIndex_PM10]
    simp only [npBool, Option.some_bind]
    norm_num [npMap, colourOfImeca, npBool]

/-- C7.  For every pollutant code outside {CO, SO2, NO2, O3, PM10} — in
particular `'PM25'` — and every scalar concentration, `imeca_colours` raises
no error: the index silently stays at its initialisation `0` and the returned
colour is the lowest band's `#75b46f`. -/
theorem imeca_unknown_pollutant_fallback (param : String) (c : ℚ)
    (h : param ∉ ["CO", "SO2", "NO2", "O3", "PM10"]) :
    imecaIndex param (.scalar c) = some (.scalar 0) ∧
    imeca_colours param (.scalar c) = some "#75b46f" := by
  simp only [List.mem_cons, List.not_mem_nil, or_false, not_or] at h
  obtain ⟨h1, h2, h3, h4, h5⟩ := h
  refine ⟨imecaIndex_other param _ h1 h2 h3 h4 h5, ?_⟩
  rw [imeca_colours, imecaIndex_other param _ h1 h2 h3 h4 h5]
  simp only [Option.some_bind, colourOfImeca_zero]

/-- Witness for C7 at the concrete code `'PM25'` and concentration `97.4`. -/
theorem imeca_unknown_pollutant_fallback_witness :
    imecaIndex "PM25" (.scalar 97.4) = some (.scalar 0) ∧
    imeca_colours "PM25" (.scalar 97.4) = some "#75b46f" :=
  imeca_unknown_pollutant_fallback "PM25" 97.4 (by decide)

/-! ## symbology_gdf (visualization.py, lines 119-145) -/

/-- A row of the point dataset handed to `symbology_gdf`: its index label,
its `conc` value, one field `geom` standing for the geometry and every other
column (carried through unchanged), and the `Colour`/`Size` columns (`none`
models a cell that was never assigned). -/
structure PtRow where
  idx : ℤ
  conc : ℚ
  geom : ℚ
  colour : Option String
  size : Option ℚ
deriving DecidableEq

/-- One iteration of the `for i in range(len(gdf))` loop of `symbology_gdf`:
select the rows whose index label equals `i`, compute `c_symbol`
(`5*c_value/p_limits(param)`, raising a key error for an unknown pollutant)
and `c_colour` (`imeca_colours` on the selected value array, which may raise
on a multi-element selection), then write both back to the selected rows.
The element-wise `Size` array assignment gives each selected row
`5 * conc / limit` of its own `conc`. -/
def symbology_step (param : String) (rows : List PtRow) (i : ℕ) : Option (List PtRow) :=
  let cvals := (rows.filter (fun r => decide (r.idx = (i : ℤ)))).map (fun r => r.conc)
  (p_limits param).bind fun lim =>
  (imeca_colours param (.arr cvals)).bind fun col =>
  some (rows.map (fun r =>
    if r.idx = (i : ℤ) then
      { r with colour := some col, size := some (5 * r.conc / lim) }
    else r))

/-- Model of `symbology_gdf(gdf, param)`: iterate the step over the labels
`0 … len(gdf)-1`; an error in any iteration aborts the call (`none`). -/
def symbology_gdf (rows : List PtRow) (param : String) : Option (List PtRow) :=
  (List.range rows.length).foldl
    (fun acc i => acc.bind fun rs => symbology_step param rs i) (some rows)

/-- The per-row annotation `symbology_gdf` performs on a row it selects:
`Colour` from `imeca_colours` on the row's concentration, `Size` equal to
`5 * conc / lim` where `lim = p_limits param`. -/
def symbology_upd (param : String) (lim : ℚ) (r : PtRow) : PtRow :=
  { r with colour := imeca_colours param (.scalar r.conc),
           size := some (5 * r.conc / lim) }

/-- The cumulative effect of the loop iterations `0 … m-1` on a row, when
every iterated label selects at most one row: rows whose label lies in
`[0, m)` are annotated, all others untouched. -/
def updBelow (param : String) (lim : ℚ) (m : ℤ) (r : PtRow) : PtRow :=
  if 0 ≤ r.idx ∧ r.idx < m then symbology_upd param lim r else r

lemma updBelow_idx (param : String) (lim : ℚ) (m : ℤ) (r : PtRow) :
    (updBelow param lim m r).idx = r.idx := by
  unfold updBelow
  split <;> rfl

lemma updBelow_conc (param : String) (lim : ℚ) (m : ℤ) (r : PtRow) :
    (updBelow param lim m r).conc = r.conc := by
  unfold updBelow
  split <;> rfl

/-- When the index labels are pairwise distinct, a label selection is empty or
a single row. -/
lemma filter_pred_nodup {rows : List PtRow}
    (hnd : (rows.map (fun r => r.idx)).Nodup) (a : ℤ) :
    rows.filter (fun r => decide (r.idx = a)) = [] ∨
    ∃ r0, rows.filter (fun r => decide (r.idx = a)) = [r0] ∧ r0.idx = a ∧ r0 ∈ rows := by
  induction rows with
  | nil => exact Or.inl rfl
  | cons r t ih =>
    rw [List.map_cons, List.nodup_cons] at hnd
    obtain ⟨hhead, htail⟩ := hnd
    by_cases hr : r.idx = a
    · refine Or.inr ⟨r, ?_, hr, List.mem_cons_self r t⟩
      rw [List.filter_cons_of_pos (by simpa using hr)]
      have htnil : t.filter (fun x => decide (x.idx = a)) = [] := by
        rw [List.filter_eq_nil_iff]
        intro x hx
        simp only [decide_eq_true_eq]
        intro hxa
        have hxr : r.idx = x.idx := by rw [hr, hxa]
        exact hhead (by rw [hxr]; exact List.mem_map_of_mem _ hx)
      rw [htnil]
    · rw [List.filter_cons_of_neg (by simpa using hr)]
      rcases ih htail with h | ⟨r0, h0, h1, h2⟩
      · exact Or.inl h
      · exact Or.inr ⟨r0, h0, h1, List.mem_cons_of_mem _ h2⟩

lemma symbology_fold_none (param : String) (l : List ℕ) :
    l.foldl (fun acc i => acc.bind fun rs => symbology_step param rs i)
      (none : Option (List PtRow)) = none := by
  induction l with
  | nil => rfl
  | cons i t ih => simpa using ih

/-- Invariant of the `symbology_gdf` loop under pairwise-distinct labels:
after iterations `0 … m-1` every step has succeeded (each selection has at
most one element), and exactly the rows with label in `[0, m)` carry their
annotation. -/
lemma symbology_fold_spec (param : String) (lim : ℚ) (rows : List PtRow)
    (hlim : p_limits param = some lim)
    (hnd : (rows.map (fun r => r.idx)).Nodup) :
    ∀ m : ℕ, (List.range m).foldl
        (fun acc i => acc.bind fun rs => symbology_step param rs i) (some rows) =
      some (rows.map (updBelow param lim (m : ℤ))) := by
  intro m
  induction m with
  | zero =>
    simp only [List.range_zero, List.foldl_nil, Nat.cast_zero, Option.some.injEq]
    have : rows.map (updBelow param lim 0) = rows.map id :=
      List.map_congr_left fun r _ => by
        unfold updBelow
        rw [if_neg (by omega)]
        rfl
    rw [this, List.map_id]
  | succ m ih =>
    rw [List.range_succ, List.foldl_append, ih]
    simp only [List.foldl_cons, List.foldl_nil, Option.some_bind]
    have hpredeq : (fun r => decide ((updBelow param lim (m : ℤ) r).idx = (m : ℤ))) =
        (fun r : PtRow => decide (r.idx = (m : ℤ))) := by
      funext r
      rw [updBelow_idx]
    have hcvals : ((rows.map (updBelow param lim (m : ℤ))).filter
          (fun r => decide (r.idx = (m : ℤ)))).map (fun r => r.conc) =
        (rows.filter (fun r => decide (r.idx = (m : ℤ)))).map (fun r => r.conc) := by
      rw [List.filter_map, List.map_map]
      have h1 : ((fun r : PtRow => decide (r.idx = (m : ℤ))) ∘ updBelow param lim (m : ℤ)) =
          (fun r : PtRow => decide (r.idx = (m : ℤ))) := by
        funext r
        simp only [Function.comp_apply, updBelow_idx]
      rw [h1]
      exact List.map_congr_left fun r _ => by
        simp only [Function.comp_apply, updBelow_conc]
    rcases filter_pred_nodup hnd (m : ℤ) with hnil | ⟨r0, hfil, hr0idx, hr0mem⟩
    · simp only [symbology_step, hcvals, hnil, List.map_nil, hlim, Option.some_bind]
      obtain ⟨c0, hc0⟩ := imeca_colours_nil param
      rw [hc0]
      simp only [Option.some_bind, Option.some.injEq, List.map_map]
      refine List.map_congr_left fun r hr => ?_
      have hrm : r.idx ≠ (m : ℤ) := by
        intro hc
        have : r ∈ rows.filter (fun r => decide (r.idx = (m : ℤ))) :=
          List.mem_filter.mpr ⟨hr, by simpa using hc⟩
        rw [hnil] at this
        exact absurd this (List.not_mem_nil r)
      simp only [Function.comp_apply, updBelow_idx, if_neg hrm]
      unfold updBelow
      by_cases h01 : 0 ≤ r.idx ∧ r.idx < (m : ℤ)
      · rw [if_pos h01, if_pos (by push_cast; omega)]
      · rw [if_neg h01, if_neg (by push_cast; omega)]
    · simp only [symbology_step, hcvals, hfil, List.map_cons, List.map_nil, hlim,
        Option.some_bind]
      rw [imeca_colours_singleton param r0.conc]
      obtain ⟨col, hcol⟩ := imeca_colours_scalar_isSome param r0.conc
      rw [hcol]
      simp only [Option.some_bind, Option.some.injEq, List.map_map]
      refine List.map_congr_left fun r hr => ?_
      simp only [Function.comp_apply, updBelow_idx]
      by_cases hrm : r.idx = (m : ℤ)
      · have hrr0 : r = r0 := by
          have : r ∈ rows.filter (fun r => decide (r.idx = (m : ℤ))) :=
            List.mem_filter.mpr ⟨hr, by simpa using hrm⟩
          rw [hfil] at this
          simpa using this
        rw [if_pos hrm]
        have hupd : updBelow param lim (m : ℤ) r = r := by
          unfold updBelow
          rw [if_neg (by omega)]
        rw [hupd]
        unfold updBelow
        rw [if_pos (by push_cast; omega)]
        unfold symbology_upd
        rw [← hrr0] at hcol
        rw [hcol]
      · rw [if_neg hrm]
        unfold updBelow
        by_cases h01 : 0 ≤ r.idx ∧ r.idx < (m : ℤ)
        · rw [if_pos h01, if_pos (by push_cast; omega)]
        · rw [if_neg h01, if_neg (by push_cast; omega)]

/-- Counterexample to C8 as stated: a one-row dataset whose index label is `5`
(not the default range label `0`) comes back with no `Colour` or `Size`
assigned at all — the single loop iteration selects label `0`, which matches
no row. -/
theorem symbology_skips_foreign_label :
    symbology_gdf [⟨5, 3, 0, none, none⟩] "CO" = some [⟨5, 3, 0, none, none⟩] := by
  decide

/-- C8 (amended).  For a dataset whose index is the default integer range
`0 … n-1` and a pollutant present in the `p_limits` table (presupposed by the
claim's formula), `symbology_gdf` succeeds and returns the same rows where
every row has `Colour = imeca_colours(param, conc)` and
`Size = 5*conc/p_limits(param)` and every other field unchanged; no row is
added or removed (the result is a `map` over the input rows). -/
theorem symbology_annotates_every_row (rows : List PtRow) (param : String) (lim : ℚ)
    (hlim : p_limits param = some lim)
    (hidx : rows.map (fun r => r.idx) =
      (List.range rows.length).map (fun k : ℕ => (k : ℤ))) :
    symbology_gdf rows param = some (rows.map (symbology_upd param lim)) := by
  have hnd : (rows.map (fun r => r.idx)).Nodup := by
    rw [hidx]
    exact (List.nodup_range _).map (fun a b h => by omega)
  have h := symbology_fold_spec param lim rows hlim hnd rows.length
  rw [symbology_gdf, h]
  congr 1
  refine List.map_congr_left fun r hr => ?_
  have hmem : r.idx ∈ rows.map (fun r => r.idx) := List.mem_map_of_mem _ hr
  rw [hidx] at hmem
  obtain ⟨j, hj, hjr⟩ := List.mem_map.mp hmem
  have hj' : j < rows.length := List.mem_range.mp hj
  unfold updBelow
  rw [if_pos (by omega)]

/-- Witness for C8 on a one-row dataset with the default index: the row gets
`Colour = #f7ff55` (CO at concentration 11) and `Size = 5*11/16.5 = 10/3`. -/
theorem symbology_annotates_every_row_witness :
    symbology_gdf [⟨0, 11, 7, none, none⟩] "CO" =
      some [⟨0, 11, 7, some "#f7ff55", some (10/3)⟩] := by
  have h := symbology_annotates_every_row [⟨0, 11, 7, none, none⟩] "CO" 16.5 rfl
    (by decide)
  rw [h]
  have hc : imeca_colours "CO" (.scalar 11) = some "#f7ff55" := by
    rw [imeca_colours, imecaIndex_CO]
    simp only [npMap, Option.some_bind, colourOfImeca, npBool]
    norm_num
  simp only [List.map_cons, List.map_nil, symbology_upd, hc]
  norm_num

/-- Counterexample to C10 as stated: two rows sharing the integer label `0` do
not "receive the same value" — the call fails and returns nothing, because the
first iteration selects a two-element concentration array and `imeca_colours`
then tests the truth value of a multi-element boolean array. -/
theorem symbology_duplicate_label_error :
    symbology_gdf [⟨0, 10, 0, none, none⟩, ⟨0, 20, 0, none, none⟩] "CO" = none := by
  decide

/-- C10 (amended).  `symbology_gdf` addresses rows by index label, iterating
labels `0 … len-1`: (1) when the labels are pairwise distinct, the call
succeeds and annotates exactly the rows whose label lies in `0 … len-1`
(under the default range index this is every row, exactly once), while a row
whose label lies outside that range is never assigned `Colour` or `Size`;
(2) rows sharing one iterated integer label do not receive a value: for any of
the five computed pollutants, a duplicated label `0` makes the call fail with
an ambiguous-truth-value error. -/
theorem symbology_label_addressing :
    (∀ (rows : List PtRow) (param : String) (lim : ℚ),
      p_limits param = some lim → (rows.map (fun r => r.idx)).Nodup →
      symbology_gdf rows param =
        some (rows.map (updBelow param lim (rows.length : ℤ)))) ∧
    (∀ (rows : List PtRow) (param : String),
      (param = "CO" ∨ param = "SO2" ∨ param = "NO2" ∨ param = "O3" ∨ param = "PM10") →
      2 ≤ (rows.filter (fun r => decide (r.idx = 0))).length →
      symbology_gdf rows param = none) := by
  constructor
  · intro rows param lim hlim hnd
    exact symbology_fold_spec param lim rows hlim hnd rows.length
  · intro rows param hp h2
    have hlen : 2 ≤ rows.length :=
      le_trans h2 (List.length_filter_le _ rows)
    obtain ⟨x, y, t, hfil⟩ : ∃ x y t,
        rows.filter (fun r => decide (r.idx = 0)) = x :: y :: t := by
      rcases hf : rows.filter (fun r => decide (r.idx = 0)) with - | ⟨x, - | ⟨y, t⟩⟩
      · rw [hf] at h2
        simp at h2
      · rw [hf] at h2
        simp at h2
      · exact ⟨x, y, t, hf⟩
    obtain ⟨m, hm⟩ : ∃ m, rows.length = m + 1 := ⟨rows.length - 1, by omega⟩
    have hstep : symbology_step param rows 0 = none := by
      simp only [symbology_step, Nat.cast_zero, hfil, List.map_cons]
      rw [imeca_colours_multi param hp]
      cases p_limits param <;> rfl
    rw [symbology_gdf, hm, List.range_succ_eq_map, List.foldl_cons, Option.some_bind,
      hstep]
    exact symbology_fold_none param _

/-- Witness for C10: a one-row dataset whose label `3` lies outside the
iterated range `0 … 0` keeps `Colour` and `Size` unassigned. -/
theorem symbology_label_addressing_witness :
    symbology_gdf [⟨3, 1, 0, none, none⟩] "CO" = some [⟨3, 1, 0, none, none⟩] := by
  have h := symbology_label_addressing.1 [⟨3, 1, 0, none, none⟩] "CO" 16.5 rfl
    (by decide)
  rw [h]
  simp only [List.map_cons, List.map_nil, updBelow]
  norm_num

/-! ## week_average (data.py, lines 337-404) -/

/-- One row of the long-format dataframe handed to `week_average`, restricted
to what the function reads: `PARAM`, the value of the `EST_{station}` column,
`CONC`, the year of `FECHA` (only `.year` is ever taken), and `LONG`/`LAT`. -/
structure Obs where
  param : String
  est : String
  conc : ℚ
  year : ℤ
  long : ℚ
  lat : ℚ
deriving DecidableEq

/-- One row of the returned `df_week`.  The label strings `'S'+str(s)` and
`'S'+str(s)+'-'+str(y)` are modelled by `s` and `(s, y)` (only equality is
ever applied to them, and the string forms are equal iff these are);
`conc`/`desv` are the `CONC`/`DESV_EST` cells (`none` is `np.nan`), `desv`
holding the sample variance, the square of the code's standard deviation. -/
structure WeekRow where
  s_id : ℕ
  s_year : ℕ × ℤ
  param : String
  est : String
  conc : Option ℚ
  desv : Option ℚ
  long : Option ℚ
  lat : Option ℚ
deriving DecidableEq

/-- Pandas `.unique()`: values in order of first appearance. -/
def uniqueList (l : List String) : List String :=
  l.foldl (fun acc x => if x ∈ acc then acc else acc ++ [x]) []

/-- The list comprehension `[y for y in range(year_start, year_end+1)]`. -/
def yearsList (ys ye : ℤ) : List ℤ :=
  (List.range (ye + 1 - ys).toNat).map (fun k : ℕ => ys + (k : ℤ))

/-- The expression `df.loc[df[station_column]==est]['LONG'].iloc[0]`. -/
def firstLong (df : List Obs) (est : String) : Option ℚ :=
  ((df.filter (fun r => decide (r.est = est))).head?).map (fun r => r.long)

/-- The expression `df.loc[df[station_column]==est]['LAT'].iloc[0]`. -/
def firstLat (df : List Obs) (est : String) : Option ℚ :=
  ((df.filter (fun r => decide (r.est = est))).head?).map (fun r => r.lat)

/-- The scaffold-building loops of `week_average` (lines 347-361): one row per
(year, week 1-52, pollutant, station), `CONC` and `DESV_EST` initialised to
`np.nan`, in exactly the nesting order of the code. -/
def scaffold (df : List Obs) (ys ye : ℤ) : List WeekRow :=
  (yearsList ys ye).flatMap fun y =>
    (List.range' 1 52).flatMap fun s =>
      (uniqueList (df.map (fun r => r.param))).flatMap fun p =>
        (uniqueList (df.map (fun r => r.est))).map fun est =>
          { s_id := s, s_year := (s, y), param := p, est := est,
            conc := none, desv := none,
            long := firstLong df est, lat := firstLat df est }

/-- The window count `divide = int(round((len(df_analysis)/interval), 0))`
with `interval = 7` (line 364 reassigns it).  Over exact arithmetic `n/7` is
never a half-integer, so Python's round-half-to-even equals
`⌊n/7 + 1/2⌋ = (2n+7)/14` (floats cannot shift this for realistic sizes). -/
def weekDivide (n : ℕ) : ℕ := (2 * n + 7) / 14

/-- The slice `df_analysis.iloc[i*interval : i*interval+interval]` with
`interval = 7`: pandas slicing clips at the end of the frame. -/
def weekWindow (sub : List Obs) (i : ℕ) : List Obs :=
  (sub.drop (7 * i)).take 7

/-- Pandas `.mean()` over a window without missing values. -/
def listMean (l : List ℚ) : ℚ := l.sum / (l.length : ℚ)

/-- The square of pandas `.std()` (sample standard deviation, `ddof = 1`)
over a window without missing values: the sample variance. -/
def listVar (l : List ℚ) : ℚ :=
  ((l.map (fun x => (x - listMean l) ^ 2)).sum) / ((l.length : ℚ) - 1)

/-- The year label of window `i`:
`day_year = i*interval + int((((i*interval+interval)-(i*interval))/2)-0.5)`
is the constant offset `7*i + 3`, and
`year_df = df_analysis['FECHA'].iloc[day_year].year`.  The `.iloc` index is
always in range for `i < weekDivide (len sub)` (proved below); outside that
the code would raise, modelled by the irrelevant default `0`. -/
def windowYear (sub : List Obs) (i : ℕ) : ℤ :=
  ((sub[7 * i + 3]?).map (fun r => r.year)).getD 0

/-- The week-counter step at the end of each window:
`s += 1; if s > 52: s = 0`. -/
def sAfter (s : ℕ) : ℕ := if s + 1 > 52 then 0 else s + 1

/-- The boolean mask of the two `.loc` writes (lines 386-396): the scaffold
row matching the current week label, week-year label, pollutant and station. -/
def weekMask (p est : String) (s : ℕ) (yr : ℤ) (r : WeekRow) : Bool :=
  decide (r.s_id = s ∧ r.s_year = (s, yr) ∧ r.param = p ∧ r.est = est)

/-- Effect of one window's two `.loc` writes on a single scaffold row: a row
matched by the mask receives the window's mean and (squared) deviation. -/
def tStep (sub : List Obs) (p est : String) (i s : ℕ) (r : WeekRow) : WeekRow :=
  if weekMask p est s (windowYear sub i) r then
    { r with conc := some (listMean ((weekWindow sub i).map (fun o => o.conc))),
             desv := some (listVar ((weekWindow sub i).map (fun o => o.conc))) }
  else r

/-- One iteration of the `for i in range(0, divide)` loop over the whole
scaffold table. -/
def weekUpdate (sub : List Obs) (p est : String) (i s : ℕ)
    (rows : List WeekRow) : List WeekRow :=
  rows.map (tStep sub p est i s)

/-- The window loop of `week_average` (lines 376-402): process `count`
windows starting at window index `i` with week counter `s`. -/
def weekLoop (sub : List Obs) (p est : String) :
    ℕ → ℕ → ℕ → List WeekRow → List WeekRow
  | 0, _, _, rows => rows
  | c + 1, i, s, rows =>
    weekLoop sub p est c (i + 1) (sAfter s) (weekUpdate sub p est i s rows)

/-- The body of the `for p`/`for est` computation loops (lines 366-402) for
one (pollutant, station) pair: filter the chronological subsequence, compute
`divide`, and run the window loop with `s` starting at 1. -/
def weekAveragePair (df : List Obs) (p est : String)
    (rows : List WeekRow) : List WeekRow :=
  let sub := df.filter (fun r => decide (r.param = p ∧ r.est = est))
  weekLoop sub p est (weekDivide sub.length) 0 1 rows

/-- Model of `week_average(df, station, interval, year_start, year_end)`.
The `interval` parameter is accepted but line 364 immediately reassigns
`interval = 7`, so the body never reads the argument; the `station` argument
only names the `EST_{station}` column, whose value is the `est` field. -/
def week_average (df : List Obs) (interval : ℕ) (ys ye : ℤ) : List WeekRow :=
  (uniqueList (df.map (fun r => r.param))).foldl
    (fun rows p =>
      (uniqueList (df.map (fun r => r.est))).foldl
        (fun rows est => weekAveragePair df p est rows) rows)
    (scaffold df ys ye)

/-- Pointwise form of the window loop acting on one scaffold row. -/
def tLoop (sub : List Obs) (p est : String) :
    ℕ → ℕ → ℕ → WeekRow → WeekRow
  | 0, _, _, r => r
  | c + 1, i, s, r =>
    tLoop sub p est c (i + 1) (sAfter s) (tStep sub p est i s r)

lemma weekLoop_eq_map (sub : List Obs) (p est : String) :
    ∀ c i s rows, weekLoop sub p est c i s rows = rows.map (tLoop sub p est c i s) := by
  intro c
  induction c with
  | zero => intro i s rows; simp [weekLoop, tLoop]
  | succ c ih =>
    intro i s rows
    rw [weekLoop, ih, weekUpdate, List.map_map]
    rfl

lemma tStep_s_id (sub : List Obs) (p est : String) (i s : ℕ) (r : WeekRow) :
    (tStep sub p est i s r).s_id = r.s_id := by
  unfold tStep
  split <;> rfl

lemma tLoop_s_id (sub : List Obs) (p est : String) :
    ∀ c i s r, (tLoop sub p est c i s r).s_id = r.s_id := by
  intro c
  induction c with
  | zero => intro i s r; rfl
  | succ c ih => intro i s r; rw [tLoop, ih, tStep_s_id]

lemma sAfter_iterate : ∀ k s : ℕ, s + k ≤ 52 → sAfter^[k] s = s + k := by
  intro k
  induction k with
  | zero => intro s _; rfl
  | succ k ih =>
    intro s hs
    rw [Function.iterate_succ_apply]
    have hstep : sAfter s = s + 1 := by
      unfold sAfter
      rw [if_neg (by omega)]
    rw [hstep, ih (s + 1) (by omega)]
    omega

lemma tLoop_skip (sub : List Obs) (p est : String) :
    ∀ c i s (r : WeekRow), (∀ k, k < c → sAfter^[k] s ≠ r.s_id) →
      tLoop sub p est c i s r = r := by
  intro c
  induction c with
  | zero => intro i s r _; rfl
  | succ c ih =>
    intro i s r hk
    have hmask : tStep sub p est i s r = r := by
      unfold tStep
      rw [if_neg]
      simp only [weekMask, decide_eq_true_eq, not_and]
      intro hsid
      exact absurd hsid.symm (hk 0 (by omega))
    rw [tLoop, hmask]
    refine ih (i + 1) (sAfter s) r fun k hkc => ?_
    have := hk (k + 1) (by omega)
    rwa [Function.iterate_succ_apply] at this

lemma tLoop_succ_last (sub : List Obs) (p est : String) :
    ∀ c i s r, tLoop sub p est (c + 1) i s r =
      tStep sub p est (i + c) (sAfter^[c] s) (tLoop sub p est c i s r) := by
  intro c
  induction c with
  | zero => intro i s r; rfl
  | succ c ih =>
    intro i s r
    rw [tLoop, ih (i + 1) (sAfter s) (tStep sub p est i s r)]
    rw [show tLoop sub p est (c + 1) i s r =
      tLoop sub p est c (i + 1) (sAfter s) (tStep sub p est i s r) from rfl]
    rw [show i + 1 + c = i + (c + 1) from by omega,
      ← Function.iterate_succ_apply]

/-- A scaffold row whose labels match window `i` receives exactly window `i`'s
mean and deviation when the loop processes windows `i₀ … i₀+c-1` (labels
running `i₀+1, i₀+2, …` without wrapping, since `i₀ + c ≤ 52`). -/
lemma tLoop_hit (sub : List Obs) (p est : String) :
    ∀ c i₀ (r : WeekRow) (i : ℕ), i₀ + c ≤ 52 → i₀ ≤ i → i < i₀ + c →
      r.s_id = i + 1 → r.s_year = (i + 1, windowYear sub i) →
      r.param = p → r.est = est →
      tLoop sub p est c i₀ (i₀ + 1) r =
        { r with
          conc := some (listMean ((weekWindow sub i).map (fun o => o.conc))),
          desv := some (listVar ((weekWindow sub i).map (fun o => o.conc))) } := by
  intro c
  induction c with
  | zero => intro i₀ r i h52 hlo hhi; omega
  | succ c ih =>
    intro i₀ r i h52 hlo hhi hsid hsy hp hest
    by_cases hii : i = i₀
    · subst hii
      have hmask : tStep sub p est i (i + 1) r =
          { r with
            conc := some (listMean ((weekWindow sub i).map (fun o => o.conc))),
            desv := some (listVar ((weekWindow sub i).map (fun o => o.conc))) } := by
        unfold tStep
        rw [if_pos]
        simp only [weekMask, decide_eq_true_eq]
        exact ⟨hsid, by rw [hsy], hp, hest⟩
      rw [tLoop, hmask]
      refine tLoop_skip sub p est c (i + 1) (sAfter (i + 1)) _ fun k hk => ?_
      have hsid' :
          ({ r with
             conc := some (listMean ((weekWindow sub i).map (fun o => o.conc))),
             desv := some (listVar ((weekWindow sub i).map (fun o => o.conc))) }
            : WeekRow).s_id = i + 1 := hsid
      rw [hsid']
      rw [← Function.iterate_succ_apply]
      rw [sAfter_iterate (k + 1) (i + 1) (by omega)]
      omega
    · have hlt : i₀ < i := by omega
      have hmask : tStep sub p est i₀ (i₀ + 1) r = r := by
        unfold tStep
        rw [if_neg]
        simp only [weekMask, decide_eq_true_eq, not_and]
        intro hc
        omega
      rw [tLoop, hmask]
      have hsa : sAfter (i₀ + 1) = (i₀ + 1) + 1 := by
        unfold sAfter
        rw [if_neg (by omega)]
      rw [hsa]
      exact ih (i₀ + 1) r i (by omega) (by omega) (by omega) hsid hsy hp hest

lemma uniqueList_all_eq {l : List String} {a : String}
    (hne : l ≠ []) (h : ∀ x ∈ l, x = a) : uniqueList l = [a] := by
  have haux : ∀ t : List String, (∀ x ∈ t, x = a) →
      t.foldl (fun acc x => if x ∈ acc then acc else acc ++ [x]) [a] = [a] := by
    intro t
    induction t with
    | nil => intro _; rfl
    | cons x t ih =>
      intro hx
      have hxa : x = a := hx x (List.mem_cons_self x t)
      rw [List.foldl_cons, hxa, if_pos (List.mem_singleton_self a)]
      exact ih fun y hy => hx y (List.mem_cons_of_mem x hy)
  cases l with
  | nil => exact absurd rfl hne
  | cons x t =>
    have hxa : x = a := h x (List.mem_cons_self x t)
    rw [uniqueList, List.foldl_cons]
    rw [show (if x ∈ ([] : List String) then ([] : List String) else [] ++ [x]) = [x]
      from by rw [if_neg (List.not_mem_nil x)]; rfl]
    rw [hxa]
    exact haux t fun y hy => h y (List.mem_cons_of_mem x hy)

lemma yearsList_mem {ys ye y : ℤ} (h1 : ys ≤ y) (h2 : y ≤ ye) :
    y ∈ yearsList ys ye := by
  rw [yearsList]
  exact List.mem_map.mpr ⟨(y - ys).toNat, List.mem_range.mpr (by omega), by omega⟩

/-- C2 (amended).  For a (pollutant, station) subsequence of `n` rows (all of
one year `y` in the scaffold range, window count at most 52), `week_average`
processes exactly `round(n/7) = ⌊n/7⌋ + (1 if n mod 7 ≥ 4 else 0)` windows —
`int(round(len/7))`, not floor-based windowing — starting at row offsets
`7i`; window `i` is the slice `[7i, 7i+7)` clipped to the series, so it has
`min 7 (n - 7i)` rows: always 7 except possibly the last, which has at least
4; a 371-row series yields exactly 53 windows; and the scaffold row of window
`i < 52` receives exactly the window's arithmetic mean and sample deviation
(modelled by the variance `listVar`). -/
theorem week_average_window_partition
    (df : List Obs) (p e : String) (y : ℤ) (w : ℕ) (ys ye : ℤ)
    (hdf : ∀ r ∈ df, r.param = p ∧ r.est = e ∧ r.year = y)
    (hy1 : ys ≤ y) (hy2 : y ≤ ye)
    (h52 : weekDivide df.length ≤ 52)
    (i : ℕ) (hi : i < weekDivide df.length) :
    weekDivide df.length =
      df.length / 7 + (if 4 ≤ df.length % 7 then 1 else 0) ∧
    weekDivide 371 = 53 ∧
    weekWindow df i = (df.drop (7 * i)).take 7 ∧
    (weekWindow df i).length = min 7 (df.length - 7 * i) ∧
    4 ≤ (weekWindow df i).length ∧
    (7 * (i + 1) ≤ df.length → (weekWindow df i).length = 7) ∧
    ({ s_id := i + 1, s_year := (i + 1, y), param := p, est := e,
       conc := some (listMean ((weekWindow df i).map (fun o => o.conc))),
       desv := some (listVar ((weekWindow df i).map (fun o => o.conc))),
       long := firstLong df e, lat := firstLat df e } : WeekRow)
      ∈ week_average df w ys ye := by
  have hlen : 7 * i + 4 ≤ df.length := by
    unfold weekDivide at hi
    omega
  have hne : df ≠ [] := List.length_pos.mp (by omega)
  have hup : uniqueList (df.map (fun r => r.param)) = [p] := by
    refine uniqueList_all_eq ?_ ?_
    · intro hmap
      exact hne (List.map_eq_nil_iff.mp hmap)
    · intro x hx
      obtain ⟨r, hr, hrx⟩ := List.mem_map.mp hx
      rw [← hrx]
      exact (hdf r hr).1
  have hue : uniqueList (df.map (fun r => r.est)) = [e] := by
    refine uniqueList_all_eq ?_ ?_
    · intro hmap
      exact hne (List.map_eq_nil_iff.mp hmap)
    · intro x hx
      obtain ⟨r, hr, hrx⟩ := List.mem_map.mp hx
      rw [← hrx]
      exact (hdf r hr).2.1
  have hsub : df.filter (fun r => decide (r.param = p ∧ r.est = e)) = df := by
    refine List.filter_eq_self.mpr fun r hr => ?_
    simp only [decide_eq_true_eq]
    exact ⟨(hdf r hr).1, (hdf r hr).2.1⟩
  have hwlen : (weekWindow df i).length = min 7 (df.length - 7 * i) := by
    rw [weekWindow, List.length_take, List.length_drop]
  refine ⟨?_, by decide, rfl, hwlen, ?_, ?_, ?_⟩
  · by_cases h4 : 4 ≤ df.length % 7
    · rw [if_pos h4]
      unfold weekDivide
      omega
    · rw [if_neg h4]
      unfold weekDivide
      omega
  · rw [hwlen]
    omega
  · intro h7
    rw [hwlen]
    omega
  · have hwy : windowYear df i = y := by
      have hidx : 7 * i + 3 < df.length := by omega
      rw [windowYear, List.getElem?_eq_getElem hidx]
      simp only [Option.map_some', Option.getD_some]
      exact (hdf _ (List.getElem_mem hidx)).2.2
    have hra : week_average df w ys ye =
        weekLoop df p e (weekDivide df.length) 0 1 (scaffold df ys ye) := by
      rw [week_average, hup, hue]
      simp only [List.foldl_cons, List.foldl_nil, weekAveragePair]
      rw [hsub]
    rw [hra, weekLoop_eq_map]
    have hr0 : ({ s_id := i + 1, s_year := (i + 1, y), param := p, est := e,
                  conc := none, desv := none,
                  long := firstLong df e, lat := firstLat df e } : WeekRow)
        ∈ scaffold df ys ye := by
      rw [scaffold, hup, hue]
      refine List.mem_flatMap.mpr ⟨y, yearsList_mem hy1 hy2, ?_⟩
      refine List.mem_flatMap.mpr ⟨i + 1, List.mem_range'_1.mpr ⟨by omega, by omega⟩, ?_⟩
      refine List.mem_flatMap.mpr ⟨p, List.mem_cons_self p [], ?_⟩
      exact List.mem_map.mpr ⟨e, List.mem_cons_self e [], rfl⟩
    have hcomp := tLoop_hit df p e (weekDivide df.length) 0
      ({ s_id := i + 1, s_year := (i + 1, y), param := p, est := e,
          conc := none, desv := none,
          long := firstLong df e, lat := firstLat df e } : WeekRow) i
      (by omega) (by omega) (by omega) rfl (by rw [hwy]) rfl rfl
    simp only [Nat.zero_add] at hcomp
    have hmem := List.mem_map_of_mem (tLoop df p e (weekDivide df.length) 0 1) hr0
    rw [hcomp] at hmem
    exact hmem

/-- A synthetic observation row: pollutant PM10, station AGU, concentration 1,
year 2014. -/
def obsPM : Obs :=
  { param := "PM10", est := "AGU", conc := 1, year := 2014, long := 0, lat := 0 }

/-- A 7-row synthetic series (one full window). -/
def df7 : List Obs := [obsPM, obsPM, obsPM, obsPM, obsPM, obsPM, obsPM]

/-- An 11-row synthetic series: `floor(11/7) = 1` but `round(11/7) = 2`. -/
def df11 : List Obs := df7 ++ [obsPM, obsPM, obsPM, obsPM]

/-- A 14-row synthetic series (two full 7-row windows). -/
def df14 : List Obs := df7 ++ df7

/-- Witness for C2: on the 7-row constant series the week-1 scaffold row of
year 2014 receives mean 1 and deviation 0. -/
theorem week_average_window_partition_witness :
    ({ s_id := 1, s_year := (1, 2014), param := "PM10", est := "AGU",
       conc := some 1, desv := some 0,
       long := some 0, lat := some 0 } : WeekRow) ∈ week_average df7 7 2014 2014 := by
  have h := (week_average_window_partition df7 "PM10" "AGU" 2014 7 2014 2014
    (by decide) (by decide) (by decide) (by decide) 0 (by decide)).2.2.2.2.2.2
  have hw : weekWindow df7 0 = df7 := rfl
  have hmap : df7.map (fun o => o.conc) = [1, 1, 1, 1, 1, 1, 1] := rfl
  have hmean : listMean [1, 1, 1, 1, 1, 1, 1] = 1 := by
    simp only [listMean, List.sum_cons, List.sum_nil, List.length_cons,
      List.length_nil]
    norm_num
  have hvar : listVar [1, 1, 1, 1, 1, 1, 1] = 0 := by
    rw [listVar, hmean]
    simp only [List.map_cons, List.map_nil, List.sum_cons, List.sum_nil,
      List.length_cons, List.length_nil]
    norm_num
  have hlong : firstLong df7 "AGU" = some 0 := rfl
  have hlat : firstLat df7 "AGU" = some 0 := rfl
  rw [hw, hmap, hmean, hvar, hlong, hlat] at h
  simpa using h

set_option maxRecDepth 40000 in
/-- Counterexample to C2 as stated: an 11-row series has `floor(11/7) = 1`
full window, yet the code computes `divide = round(11/7) = 2` and writes a
second (4-row partial) window's statistics: the week-2 scaffold row comes
back with a non-missing `CONC`, so the final partial window is not dropped
and the window count is not `floor(n/7)`. -/
theorem week_average_floor_counterexample :
    (11 : ℕ) / 7 = 1 ∧ weekDivide 11 = 2 ∧
    ((week_average df11 7 2014 2014).filter (fun r => decide (r.s_id = 2))).map
      (fun r => r.conc.isSome) = [true] := by
  refine ⟨rfl, rfl, ?_⟩
  decide

lemma scaffold_sid_bounds {df : List Obs} {ys ye : ℤ} {r : WeekRow}
    (hr : r ∈ scaffold df ys ye) : 1 ≤ r.s_id ∧ r.s_id ≤ 52 := by
  rw [scaffold] at hr
  obtain ⟨y, -, hr⟩ := List.mem_flatMap.mp hr
  obtain ⟨s, hs, hr⟩ := List.mem_flatMap.mp hr
  obtain ⟨p, -, hr⟩ := List.mem_flatMap.mp hr
  obtain ⟨e, -, hre⟩ := List.mem_map.mp hr
  have hs' := List.mem_range'_1.mp hs
  rw [← hre]
  change 1 ≤ s ∧ s ≤ 52
  omega

lemma weekAveragePair_sid_pred (Q : ℕ → Prop) (df : List Obs) (p est : String)
    (rows : List WeekRow) (h : ∀ r ∈ rows, Q r.s_id) :
    ∀ r' ∈ weekAveragePair df p est rows, Q r'.s_id := by
  intro r' hr'
  simp only [weekAveragePair] at hr'
  rw [weekLoop_eq_map] at hr'
  obtain ⟨r, hr, hrr⟩ := List.mem_map.mp hr'
  rw [← hrr, tLoop_s_id]
  exact h r hr

lemma foldl_est_sid_pred (Q : ℕ → Prop) (df : List Obs) (p : String) :
    ∀ (l : List String) (rows : List WeekRow), (∀ r ∈ rows, Q r.s_id) →
      ∀ r' ∈ l.foldl (fun rows est => weekAveragePair df p est rows) rows,
        Q r'.s_id := by
  intro l
  induction l with
  | nil => intro rows h r' hr'; exact h r' hr'
  | cons x t ih =>
    intro rows h r' hr'
    rw [List.foldl_cons] at hr'
    exact ih _ (weekAveragePair_sid_pred Q df p x rows h) r' hr'

lemma foldl_param_sid_pred (Q : ℕ → Prop) (df : List Obs) (lest : List String) :
    ∀ (lp : List String) (rows : List WeekRow), (∀ r ∈ rows, Q r.s_id) →
      ∀ r' ∈ lp.foldl (fun rows p =>
          lest.foldl (fun rows est => weekAveragePair df p est rows) rows) rows,
        Q r'.s_id := by
  intro lp
  induction lp with
  | nil => intro rows h r' hr'; exact h r' hr'
  | cons x t ih =>
    intro rows h r' hr'
    rw [List.foldl_cons] at hr'
    exact ih _ (foldl_est_sid_pred Q df x lest rows h) r' hr'

/-- C3.  Week labels of the returned table and of the wrapped counter:
(1) every row of the table returned by `week_average` has a week label
`S1 … S52` (the scaffold pre-allocates only weeks 1-52 and the computation
loop never adds rows); (2) starting from 1, after 52 windows the week counter
has wrapped to 0 — not 1 — so a 53rd window is assigned the label `S0`;
(3) processing a 53rd window is a no-op on any table whose rows all have
non-zero week labels: the `S0` window's mean and deviation are silently
dropped. -/
theorem week_average_week_label_wrap :
    (∀ (df : List Obs) (w : ℕ) (ys ye : ℤ) (r : WeekRow),
      r ∈ week_average df w ys ye → 1 ≤ r.s_id ∧ r.s_id ≤ 52) ∧
    sAfter^[52] 1 = 0 ∧
    (∀ (sub : List Obs) (p est : String) (rows : List WeekRow),
      (∀ r ∈ rows, r.s_id ≠ 0) →
      weekLoop sub p est 53 0 1 rows = weekLoop sub p est 52 0 1 rows) := by
  have h52 : sAfter^[52] 1 = 0 := by
    rw [show (52 : ℕ) = 51 + 1 from rfl, Function.iterate_succ_apply',
      sAfter_iterate 51 1 (by omega)]
    rfl
  refine ⟨?_, h52, ?_⟩
  · intro df w ys ye r hr
    rw [week_average] at hr
    exact foldl_param_sid_pred (fun s => 1 ≤ s ∧ s ≤ 52) df _ _ _
      (fun r0 hr0 => scaffold_sid_bounds hr0) r hr
  · intro sub p est rows h
    rw [weekLoop_eq_map, weekLoop_eq_map]
    refine List.map_congr_left fun r hr => ?_
    rw [show (53 : ℕ) = 52 + 1 from rfl, tLoop_succ_last, h52]
    have hsid : (tLoop sub p est 52 0 1 r).s_id = r.s_id := tLoop_s_id sub p est 52 0 1 r
    unfold tStep
    rw [if_neg]
    intro hmask
    rw [weekMask] at hmask
    simp only [decide_eq_true_eq] at hmask
    rw [hsid] at hmask
    exact h r hr hmask.1

/-- Witness for C3 part (3): with an all-empty table (vacuously free of label
`S0`), processing 53 windows gives the same result as processing 52. -/
theorem week_average_week_label_wrap_witness :
    weekLoop [] "PM10" "AGU" 53 0 1 [] = weekLoop [] "PM10" "AGU" 52 0 1 [] :=
  week_average_week_label_wrap.2.2 [] "PM10" "AGU" []
    (fun r hr => absurd hr (List.not_mem_nil r))

set_option maxRecDepth 40000 in
/-- C4.  The window-size argument of `week_average` is dead: line 364
reassigns `interval = 7` before the computation loops, so every call
partitions into 7-row windows regardless of the argument.  On the 14-row
series, a call with window size 14 — which should produce a single 14-row
window — still records two 7-row windows (weeks S1 and S2), and the output is
identical for any two argument values. -/
theorem week_average_interval_ignored :
    (∀ (df : List Obs) (w wAlt : ℕ) (ys ye : ℤ),
      week_average df w ys ye = week_average df wAlt ys ye) ∧
    ((week_average df14 14 2014 2014).filter (fun r => r.conc.isSome)).map
      (fun r => r.s_id) = [1, 2] := by
  refine ⟨fun df w wAlt ys ye => rfl, ?_⟩
  decide
